/-
Verification of TreeProjection.py: a pipeline that loads LIDAR point clouds,
recentres them around the highest point, projects them onto vertical planes at
several angles, bins the projected points into a 2-D histogram and renders the
log-scaled grid as a grayscale image, in parallel over independent files.

Shallow embedding conventions:
* 3-D points are triples; geometry involving sin/cos is over ℝ.
* Exact numeric steps (histogram binning, pixel-width computation) are over ℚ,
  so that they stay executable; the bin width pd (a square root in the code)
  appears as a positive parameter.
* Python exceptions are `Except String`; the multiprocessing pool is a `map`
  over the task list (tasks are independent and results are collected in
  submission order by `Pool.map`).
-/
import Mathlib

namespace TreeProjection

/-! ## Geometry utilities -/

/-- A 3-D point/vector, as in the numpy arrays of shape (·, 3). -/
abbrev V3 (α : Type) := α × α × α

/-- Dot product of 3-vectors, `np.dot` on rows of shape-(3,) arrays. -/
def dot3 {α : Type} [CommRing α] (p q : V3 α) : α :=
  p.1 * q.1 + p.2.1 * q.2.1 + p.2.2 * q.2.2

/-- `find_highest_point(points)`: `points[np.argmax(points[:, 2])]`.
`np.argmax` scans for the maximum and returns the first index attaining it;
on an empty array it raises, modelled by `none`. -/
def find_highest_point {α : Type} [LinearOrder α] : List (V3 α) → Option (V3 α)
  | [] => none
  | p :: t =>
    match find_highest_point t with
    | none => some p
    | some r => some (if p.2.2 < r.2.2 then r else p)

/-- `offset(points)`: `[highest.x, highest.y, 0]`. -/
def offset {α : Type} [LinearOrder α] [Zero α] (points : List (V3 α)) :
    Option (V3 α) :=
  (find_highest_point points).map (fun h => (h.1, h.2.1, 0))

/-- `get_plane(angle_deg)`: basis vectors of the projection plane.
`np.radians` converts degrees to radians. -/
noncomputable def get_plane (angle_deg : ℝ) : V3 ℝ × V3 ℝ × V3 ℝ :=
  let angle := angle_deg * (Real.pi / 180)
  ((Real.cos angle, Real.sin angle, 0),
   (0, 0, 1),
   (-Real.sin angle, Real.cos angle, 0))

/-- `project_to_plane(points, u, v)`: `column_stack([points·u, points·v])`. -/
def project_to_plane {α : Type} [CommRing α] (points : List (V3 α))
    (u v : V3 α) : List (α × α) :=
  points.map (fun p => (dot3 p u, dot3 p v))

/-! ## Extents (numpy min/max over the projected coordinates)

`projected_points[:, 0].min()` etc.; numpy raises on an empty array, so these
are defined on nonempty lists via a head seed. -/

/-- Minimum of the first coordinates (`points[:, 0].min()`), head-seeded. -/
def xminOf (pts : List (ℚ × ℚ)) : ℚ :=
  (pts.map Prod.fst).foldl min ((pts.headD (0, 0)).1)

/-- Maximum of the first coordinates (`points[:, 0].max()`), head-seeded. -/
def xmaxOf (pts : List (ℚ × ℚ)) : ℚ :=
  (pts.map Prod.fst).foldl max ((pts.headD (0, 0)).1)

/-- Minimum of the second coordinates (`points[:, 1].min()`), head-seeded. -/
def yminOf (pts : List (ℚ × ℚ)) : ℚ :=
  (pts.map Prod.snd).foldl min ((pts.headD (0, 0)).2)

/-- Maximum of the second coordinates (`points[:, 1].max()`), head-seeded. -/
def ymaxOf (pts : List (ℚ × ℚ)) : ℚ :=
  (pts.map Prod.snd).foldl max ((pts.headD (0, 0)).2)

/-! ## Histogram construction (`np.arange`, `np.histogram2d`) -/

/-- `np.arange(start, stop, step)` for a positive step: the arithmetic
sequence `start + i * step` of length `⌈(stop - start) / step⌉`. -/
def arange (start stop step : ℚ) : List ℚ :=
  (List.range (⌈(stop - start) / step⌉).toNat).map
    (fun i : ℕ => start + (i : ℚ) * step)

/-- The bin index `np.histogram2d` assigns to a 1-D value for a given sorted
edge list: `searchsorted(edges, x, side = right) - 1`, with a value equal to
the last edge placed in the last bin; values outside `[edges[0], edges[-1]]`
are dropped (`none`). -/
def binIndexOf (edges : List ℚ) (x : ℚ) : Option ℕ :=
  if edges.length < 2 then none
  else if x < edges.getD 0 0 ∨ edges.getD (edges.length - 1) 0 < x then none
  else if x = edges.getD (edges.length - 1) 0 then some (edges.length - 2)
  else some (edges.countP (fun e => decide (e ≤ x)) - 1)

/-- Cell `(i, j)` of the raw `np.histogram2d(x, y, bins=[xedges, yedges])`
count grid: the number of points whose x falls in x-bin `i` and whose y falls
in y-bin `j`. -/
def histCell (pts : List (ℚ × ℚ)) (xedges yedges : List ℚ) (i j : ℕ) : ℕ :=
  pts.countP (fun p =>
    decide (binIndexOf xedges p.1 = some i) &&
    decide (binIndexOf yedges p.2 = some j))

/-- `hist2d(points, xbins, ybins)` returns `H.T`: the transposed grid, so the
row index is the y-bin and the column index the x-bin. -/
def hist2d (pts : List (ℚ × ℚ)) (xbins ybins : List ℚ) (row col : ℕ) : ℕ :=
  histCell pts xbins ybins col row

/-- The (row, column) grid cell a projected point is assigned to by
`np.histogram2d` followed by the transpose of `hist2d`: `none` when either
coordinate falls outside its edges. -/
def binPair (xedges yedges : List ℚ) (q : ℚ × ℚ) : Option (ℕ × ℕ) :=
  match binIndexOf xedges q.1, binIndexOf yedges q.2 with
  | some i, some j => some (j, i)
  | _, _ => none

/-- The x bin edges of `process_tree`:
`np.arange(xext[0], xext[1] + pd, pd)`. -/
def xbinsOf (pts : List (ℚ × ℚ)) (pd : ℚ) : List ℚ :=
  arange (xminOf pts) (xmaxOf pts + pd) pd

/-- The y bin edges of `process_tree`:
`np.arange(yext[0], yext[1] + pd, pd)`. -/
def ybinsOf (pts : List (ℚ × ℚ)) (pd : ℚ) : List ℚ :=
  arange (yminOf pts) (ymaxOf pts + pd) pd

/-- Total of all cells of the histogram grid built by `process_tree` for the
projected point set `pts` and bin width `pd` (the transpose taken by `hist2d`
only swaps the summation indices). -/
def histTotal (pts : List (ℚ × ℚ)) (pd : ℚ) : ℕ :=
  ∑ p ∈ Finset.range ((ybinsOf pts pd).length - 1) ×ˢ
        Finset.range ((xbinsOf pts pd).length - 1),
    hist2d pts (xbinsOf pts pd) (ybinsOf pts pd) p.1 p.2

/-! ## Pixel-width computation (`process_tree`, lines 96-97) -/

/-- Python `int()` applied to a (here exact) quotient: truncation toward
zero. -/
def pyint (q : ℚ) : ℤ :=
  if q < 0 then -⌊-q⌋ else ⌊q⌋

/-- Python float division `a / b`, raising `ZeroDivisionError` on `b = 0`. -/
def pydiv (a b : ℚ) : Except String ℚ :=
  if b = 0 then Except.error "ZeroDivisionError: float division by zero"
  else Except.ok (a / b)

/-- Lines 96-97 of `process_tree`: `ypx = 1000; xpx = int(ypx / (yl / xl))`,
with Python's division-by-zero behaviour made explicit. -/
def xpxOf (xl yl : ℚ) : Except String ℤ := do
  let r ← pydiv yl xl
  let q ← pydiv 1000 r
  pure (pyint q)

/-! ## Per-angle processing (`process_tree`, lines 89-128)

The per-angle body of `process_tree` after projection: extent, pixel width,
bin width, bin edges, histogram.  The floating square root
`np.sqrt((xl * yl) / len(projected_points))` is abstracted as a function
argument `sqrtA`; `np.sqrt` never raises, so any total function is a faithful
stand-in.  `np.arange` with step 0 and numpy reductions over an empty array
raise, which `Except.error` records. -/

/-- One iteration of the angle loop of `process_tree`, from the projected
points to the data of the rendered image (pixel width and count grid). -/
def processAngle (sqrtA : ℚ → ℚ) (proj : List (ℚ × ℚ)) :
    Except String (ℤ × List (List ℕ)) := do
  if proj.isEmpty then
    Except.error "ValueError: zero-size array to reduction operation"
  else
    let xl := xmaxOf proj - xminOf proj
    let yl := ymaxOf proj - yminOf proj
    let xpx ← xpxOf xl yl
    let pd := sqrtA (xl * yl / proj.length)
    if pd = 0 then
      Except.error "ZeroDivisionError: division by zero in arange"
    else
      let xbins := arange (xminOf proj) (xmaxOf proj + pd) pd
      let ybins := arange (yminOf proj) (ymaxOf proj + pd) pd
      let grid := (List.range (ybins.length - 1)).map (fun r =>
        (List.range (xbins.length - 1)).map (fun c => hist2d proj xbins ybins r c))
      pure (xpx, grid)

/-- The angle loop of `process_tree`: each angle is processed in order and the
first exception aborts the whole file.  `projOf` gives the projected point set
of each angle (offset shift and projection are modelled separately, over ℝ). -/
def processTree (sqrtA : ℚ → ℚ) (projOf : ℚ → List (ℚ × ℚ)) :
    List ℚ → Except String (List (ℤ × List (List ℕ)))
  | [] => Except.ok []
  | a :: rest => do
    let r ← processAngle sqrtA (projOf a)
    let rs ← processTree sqrtA projOf rest
    pure (r :: rs)

/-! ## Batch orchestration (`process_file_wrapper`, `main`) -/

/-- A unit of work: (input file path, output folder path). -/
abbrev Task := String × String

/-- `process_file_wrapper(args)`: runs one task, catching every exception and
turning the outcome into a boolean.  `run` is the per-task body
(`process_tree`), whose Python exceptions are `Except.error`. -/
def process_file_wrapper (run : Task → Except String Unit) (t : Task) : Bool :=
  match run t with
  | Except.ok _ => true
  | Except.error _ => false

/-- `pool.map(process_file_wrapper, all_tasks)`: every task is executed
independently and the boolean results are collected in task-list order. -/
def poolMap (run : Task → Except String Unit) (tasks : List Task) : List Bool :=
  tasks.map (process_file_wrapper run)

/-- `successful = sum(results)` together with the total:
the `<successful>/<total>` pair logged by `main` (line 213-214). -/
def mainSummary (run : Task → Except String Unit) (tasks : List Task) :
    ℕ × ℕ :=
  ((poolMap run tasks).count true, tasks.length)

/-- The task body of the real pipeline: `process_tree` for the file of task
`t`, with all per-angle projected point sets given by `projs`. -/
def runTreeTask (sqrtA : ℚ → ℚ) (projs : Task → ℚ → List (ℚ × ℚ))
    (angles : List ℚ) (t : Task) : Except String Unit :=
  (processTree sqrtA (projs t) angles).map (fun _ => ())

/-- The directory facts `main` consults: existence, directory-ness, the
subdirectories with their .las/.laz files, and the .las/.laz files directly in
the root. -/
structure InputRoot where
  pathExists : Bool
  isDir : Bool
  subdirs : List (String × List String)
  rootFiles : List String

/-- The task list `main` discovers (lines 174-199): per-subdirectory when
subdirectories exist (each mapping to a like-named output subfolder), flat
otherwise. -/
def discoveredTasks (inp : InputRoot) (outputPath : String) : List Task :=
  if inp.subdirs.isEmpty then
    inp.rootFiles.map (fun f => (f, outputPath))
  else
    (inp.subdirs.map (fun sd =>
      sd.2.map (fun f => (f, outputPath ++ "/" ++ sd.1)))).flatten

/-- `main(input_path, output_path)` up to the final summary: validation
(lines 156-168), discovery, the empty-task checks (lines 184-190 and
201-205; both raise `FileNotFoundError`), then the pool run and the
`<successful>/<total>` report. -/
def mainRun (inp : InputRoot) (outputPath : String)
    (run : Task → Except String Unit) : Except String (ℕ × ℕ) :=
  if inp.pathExists = false then
    Except.error "FileNotFoundError: input path does not exist"
  else if inp.isDir = false then
    Except.error "NotADirectoryError: input path is not a directory"
  else
    let tasks := discoveredTasks inp outputPath
    if tasks.isEmpty then
      Except.error "FileNotFoundError: no LAS or LAZ files found"
    else
      Except.ok (mainSummary run tasks)

/-! ## Offset shift and projection at an angle (`process_tree`, lines 74-87) -/

/-- Componentwise difference of 3-D points (`points - o`, broadcast). -/
def sub3 {α : Type} [CommRing α] (p o : V3 α) : V3 α :=
  (p.1 - o.1, p.2.1 - o.2.1, p.2.2 - o.2.2)

/-- Lines 74-87 of `process_tree`: shift all points by the offset of the
highest point, then project onto the plane of the given angle; `none` when
the cloud is empty (`np.argmax` raises there). -/
noncomputable def projectedAt (points : List (V3 ℝ)) (angle : ℝ) :
    Option (List (ℝ × ℝ)) :=
  (offset points).map (fun o =>
    let shifted := points.map (fun p => sub3 p o)
    let uvn := get_plane angle
    project_to_plane shifted uvn.1 uvn.2.1)

/-! ## Log-scaled rendering (`process_tree`, lines 108-122)

The grid is a nonempty rectangular array of counts; `imshow(larr,
cmap=binary, vmin=-1, vmax=larr.max()*0.5)` maps each cell through the affine
normalisation `(v - vmin) / (vmax - vmin)` clipped to `[0, 1]`, and the
`binary` colormap turns that normalised value directly into darkness (0 is
white, 1 is black), so the clipped normalised value is the rendered
intensity. -/

/-- `larr = np.log(arr + 1)` for a count grid. -/
noncomputable def logGrid {m n : ℕ} (g : Fin (m + 1) → Fin (n + 1) → ℕ)
    (i : Fin (m + 1)) (j : Fin (n + 1)) : ℝ :=
  Real.log (g i j + 1)

/-- `larr.max()`: the maximum of the log grid. -/
noncomputable def larrMax {m n : ℕ} (g : Fin (m + 1) → Fin (n + 1) → ℕ) : ℝ :=
  Finset.univ.sup' Finset.univ_nonempty
    (fun p : Fin (m + 1) × Fin (n + 1) => logGrid g p.1 p.2)

/-- The `vmax = larr.max() * 0.5` window ceiling of `imshow`. -/
noncomputable def vmaxOf {m n : ℕ} (g : Fin (m + 1) → Fin (n + 1) → ℕ) : ℝ :=
  larrMax g * (1 / 2)

/-- The `vmin = -1` window floor of `imshow`. -/
def vminVal : ℝ := -1

/-- Rendered intensity (darkness on the inverted grayscale) of one cell:
the window normalisation of `imshow`, clipped to `[0, 1]`. -/
noncomputable def renderedIntensity {m n : ℕ}
    (g : Fin (m + 1) → Fin (n + 1) → ℕ)
    (i : Fin (m + 1)) (j : Fin (n + 1)) : ℝ :=
  min 1 (max 0 ((logGrid g i j - vminVal) / (vmaxOf g - vminVal)))

/-- The maximum count of the grid (used to compare the windows of two
grids; `larr.max() = log(maxCount + 1)` since `log` is monotone). -/
def maxCount {m n : ℕ} (g : Fin (m + 1) → Fin (n + 1) → ℕ) : ℕ :=
  Finset.univ.sup (fun p : Fin (m + 1) × Fin (n + 1) => g p.1 p.2)

/-! ## Theorems -/

/-- Bind of a successful `Except` computation reduces. -/
lemma except_bind_ok {ε α β : Type} (a : α) (f : α → Except ε β) :
    (Except.ok a : Except ε α) >>= f = f a := rfl

/-- Map over a successful `Except` computation reduces. -/
lemma except_map_ok {ε α β : Type} (f : α → β) (a : α) :
    f <$> (Except.ok a : Except ε α) = Except.ok (f a) := rfl

/-- Bind of a failed `Except` computation short-circuits. -/
lemma except_bind_error {ε α β : Type} (e : ε) (f : α → Except ε β) :
    (Except.error e : Except ε α) >>= f = Except.error e := rfl

/-- C3: `get_plane(a)` returns `u = (cos t, sin t, 0)`, `v = (0, 0, 1)`,
`n = (-sin t, cos t, 0)` with `t = a` converted to radians; `u` and `n` are
unit-length (squared norm 1) and mutually orthogonal, and `v = (0, 0, 1)`
for every angle. -/
theorem get_plane_spec (a : ℝ) :
    get_plane a =
      ((Real.cos (a * (Real.pi / 180)), Real.sin (a * (Real.pi / 180)), 0),
       (0, 0, 1),
       (-Real.sin (a * (Real.pi / 180)), Real.cos (a * (Real.pi / 180)), 0)) ∧
    dot3 (get_plane a).1 (get_plane a).1 = 1 ∧
    dot3 (get_plane a).2.2 (get_plane a).2.2 = 1 ∧
    dot3 (get_plane a).1 (get_plane a).2.2 = 0 ∧
    (get_plane a).2.1 = (0, 0, 1) := by
  have hpyth := Real.sin_sq_add_cos_sq (a * (Real.pi / 180))
  refine ⟨rfl, ?_, ?_, ?_, rfl⟩ <;>
    simp [get_plane, dot3] <;> nlinarith [hpyth]

/-- C2: `project_to_plane` emits exactly one 2-D point per input point, in
order, the i-th output being `(p_i · u, p_i · v)`; as a pure map it leaves
the input list untouched. -/
theorem project_to_plane_spec {α : Type} [CommRing α] (points : List (V3 α))
    (u v : V3 α) :
    (project_to_plane points u v).length = points.length ∧
    ∀ i : Fin points.length,
      (project_to_plane points u v)[(i : ℕ)]? =
        some (dot3 (points.get i) u, dot3 (points.get i) v) := by
  refine ⟨by simp [project_to_plane], fun i => ?_⟩
  simp [project_to_plane, List.getElem?_eq_getElem i.isLt]

/-- C7, counterexample: the claim says the width is
`round(1000 / (yrange/xrange))`, the quotient rounded to nearest; at
`xrange = 1`, `yrange = 600` the code computes `int(1000/600) = 1` while
rounding gives `2`. -/
theorem xpx_round_counterexample :
    (0 : ℚ) < 1 ∧ (0 : ℚ) < 600 ∧
    xpxOf 1 600 ≠ Except.ok (round ((1000 : ℚ) / (600 / 1))) := by
  refine ⟨by norm_num, by norm_num, ?_⟩
  have hd1 : pydiv 600 1 = Except.ok 600 := by norm_num [pydiv]
  have hd2 : pydiv 1000 600 = Except.ok (5 / 3) := by norm_num [pydiv]
  have hpy : pyint ((5 : ℚ) / 3) = 1 := by
    rw [pyint, if_neg (by norm_num)]
    norm_num
  have h1 : xpxOf 1 600 = Except.ok 1 := by
    simp [xpxOf, hd1, except_bind_ok, hd2, except_map_ok, hpy]
  have h2 : round ((1000 : ℚ) / (600 / 1)) = 2 := by
    norm_num [round_eq]
  rw [h1, h2]
  intro h
  exact absurd (Except.ok.inj h) (by decide)

/-- C7, amended: for positive extents the target height is fixed at 1000 px
and the width is `int(1000 / (yrange/xrange))`, the quotient truncated toward
zero — i.e. `⌊1000 · xrange / yrange⌋` — not rounded to nearest. -/
theorem xpx_spec (xl yl : ℚ) (hx : 0 < xl) (hy : 0 < yl) :
    xpxOf xl yl = Except.ok ⌊(1000 : ℚ) * xl / yl⌋ := by
  have h1 : yl / xl ≠ 0 := div_ne_zero hy.ne' hx.ne'
  have hq : (0 : ℚ) < 1000 / (yl / xl) := by positivity
  have h2 : (1000 : ℚ) / (yl / xl) = 1000 * xl / yl := by
    field_simp
  have hd1 : pydiv yl xl = Except.ok (yl / xl) := by
    simp [pydiv, hx.ne']
  have hd2 : pydiv 1000 (yl / xl) = Except.ok (1000 / (yl / xl)) := by
    simp [pydiv, h1]
  have hpy : pyint (1000 / (yl / xl)) = ⌊(1000 : ℚ) * xl / yl⌋ := by
    rw [pyint, if_neg (not_lt.mpr hq.le), h2]
  simp [xpxOf, hd1, hd2, hpy, except_bind_ok, except_map_ok]

/-- C7, witness for the amended theorem. -/
theorem xpx_spec_witness :
    (0 : ℚ) < 1 ∧ (0 : ℚ) < 600 ∧
    xpxOf 1 600 = Except.ok ⌊(1000 : ℚ) * 1 / 600⌋ :=
  ⟨by decide, by decide, xpx_spec 1 600 (by decide) (by decide)⟩

/-- `find_highest_point` returns `none` exactly on the empty list. -/
lemma find_highest_point_none_iff {α : Type} [LinearOrder α]
    (pts : List (V3 α)) :
    find_highest_point pts = none ↔ pts = [] := by
  cases pts with
  | nil => simp [find_highest_point]
  | cons p t =>
    simp only [find_highest_point]
    cases find_highest_point t <;> simp

/-- C4: on a non-empty point sequence, `find_highest_point` returns an
element whose z-coordinate is maximal, and among ties the one occurring
first (every earlier element has strictly smaller z). -/
theorem find_highest_point_spec {α : Type} [LinearOrder α]
    (pts : List (V3 α)) (hne : pts ≠ []) :
    ∃ (r : V3 α) (i : ℕ),
      find_highest_point pts = some r ∧
      pts[i]? = some r ∧
      (∀ q ∈ pts, q.2.2 ≤ r.2.2) ∧
      (∀ j, j < i → ∀ q, pts[j]? = some q → q.2.2 < r.2.2) := by
  induction pts with
  | nil => exact absurd rfl hne
  | cons p t ih =>
    cases hft : find_highest_point t with
    | none =>
      have ht : t = [] := (find_highest_point_none_iff t).mp hft
      subst ht
      refine ⟨p, 0, by simp [find_highest_point], by simp, ?_, ?_⟩
      · intro q hq
        rcases List.mem_singleton.mp hq with rfl
        exact le_refl _
      · intro j hj
        omega
    | some r' =>
      have ht : t ≠ [] := by
        intro h
        rw [(find_highest_point_none_iff t).mpr h] at hft
        exact Option.noConfusion hft
      obtain ⟨r2, i', hfind', hget', hmax', hfirst'⟩ := ih ht
      rw [hft] at hfind'
      have hr : r' = r2 := Option.some.inj hfind'
      subst hr
      by_cases hpz : p.2.2 < r'.2.2
      · refine ⟨r', i' + 1, ?_, ?_, ?_, ?_⟩
        · simp [find_highest_point, hft, if_pos hpz]
        · simpa using hget'
        · intro q hq
          rcases List.mem_cons.mp hq with rfl | h
          · exact hpz.le
          · exact hmax' q h
        · intro j hj q hq
          cases j with
          | zero =>
            obtain rfl : p = q := by simpa using hq
            exact hpz
          | succ k =>
            exact hfirst' k (by omega) q (by simpa using hq)
      · refine ⟨p, 0, ?_, by simp, ?_, ?_⟩
        · simp [find_highest_point, hft, if_neg hpz]
        · intro q hq
          rcases List.mem_cons.mp hq with rfl | h
          · exact le_refl _
          · exact le_trans (hmax' q h) (not_lt.mp hpz)
        · intro j hj q hq
          omega

/-- C4, witness at a concrete two-point cloud. -/
theorem find_highest_point_spec_witness :
    ([((0 : ℚ), 0, 1), (0, 0, 2)] : List (V3 ℚ)) ≠ [] ∧
    (∃ (r : V3 ℚ) (i : ℕ),
      find_highest_point [((0 : ℚ), 0, 1), (0, 0, 2)] = some r ∧
      ([((0 : ℚ), 0, 1), (0, 0, 2)] : List (V3 ℚ))[i]? = some r ∧
      (∀ q ∈ ([((0 : ℚ), 0, 1), (0, 0, 2)] : List (V3 ℚ)), q.2.2 ≤ r.2.2) ∧
      (∀ j, j < i → ∀ q,
        ([((0 : ℚ), 0, 1), (0, 0, 2)] : List (V3 ℚ))[j]? = some q →
          q.2.2 < r.2.2)) :=
  ⟨by decide, find_highest_point_spec _ (by decide)⟩

/-- C5: every exception raised while processing one file is caught at the
wrapper boundary (the wrapper returns `false` on any `error`, `true` on
success), the pool still produces one result per task (no failure aborts a
sibling), and `main` reports the pair (number of tasks whose wrapper
returned `true`, total number of tasks). -/
theorem wrapper_isolates (run : Task → Except String Unit)
    (tasks : List Task) :
    (∀ t e, run t = Except.error e → process_file_wrapper run t = false) ∧
    (∀ t, run t = Except.ok () → process_file_wrapper run t = true) ∧
    (poolMap run tasks).length = tasks.length ∧
    mainSummary run tasks =
      (tasks.countP (fun t => process_file_wrapper run t), tasks.length) := by
  refine ⟨?_, ?_, by simp [poolMap], ?_⟩
  · intro t e h
    simp [process_file_wrapper, h]
  · intro t h
    simp [process_file_wrapper, h]
  · have hb : ∀ b : Bool, (b == true) = b := by decide
    simp only [mainSummary, poolMap, List.count, List.countP_map,
      Function.comp_def, hb]

/-- C5, witness: a task whose body raises is reported as failed. -/
theorem wrapper_isolates_witness :
    process_file_wrapper (fun _ => Except.error "boom") ("a.las", "out")
      = false :=
  (wrapper_isolates (fun _ => Except.error "boom") [("a.las", "out")]).1
    ("a.las", "out") "boom" rfl

/-- C6: `main` fails before any task is scheduled exactly when the input
root does not exist, is not a directory, or no .las/.laz files are
discovered by either strategy; otherwise it runs the pool over the
discovered (non-empty) task list and reports its summary. -/
theorem main_validation (inp : InputRoot) (outputPath : String)
    (run : Task → Except String Unit) :
    ((∃ e, mainRun inp outputPath run = Except.error e) ↔
      (inp.pathExists = false ∨ inp.isDir = false ∨
        discoveredTasks inp outputPath = [])) ∧
    (∀ s, mainRun inp outputPath run = Except.ok s →
      discoveredTasks inp outputPath ≠ [] ∧
      s = mainSummary run (discoveredTasks inp outputPath)) := by
  by_cases h1 : inp.pathExists = false
  · constructor
    · simp [mainRun, h1]
    · intro s hs
      simp [mainRun, h1] at hs
  · by_cases h2 : inp.isDir = false
    · constructor
      · simp [mainRun, h1, h2]
      · intro s hs
        simp [mainRun, h1, h2] at hs
    · by_cases h3 : discoveredTasks inp outputPath = []
      · constructor
        · simp [mainRun, h1, h2, h3]
        · intro s hs
          simp [mainRun, h1, h2, h3] at hs
      · constructor
        · simp [mainRun, h1, h2, h3, List.isEmpty_iff]
        · intro s hs
          simp [mainRun, h1, h2, List.isEmpty_iff, h3] at hs
          exact ⟨h3, hs.symm⟩

/-- C6, witness: an existing directory with one flat .las file passes
validation, task execution begins, and the summary covers exactly that
task. -/
theorem main_validation_witness :
    discoveredTasks ⟨true, true, [], ["a.las"]⟩ "out" ≠ [] ∧
    (1, 1) = mainSummary (fun _ => Except.ok ())
      (discoveredTasks ⟨true, true, [], ["a.las"]⟩ "out") :=
  (main_validation ⟨true, true, [], ["a.las"]⟩ "out"
    (fun _ => Except.ok ())).2 (1, 1) rfl

/-- `xpxOf` raises Python's `ZeroDivisionError` when either extent is
zero: `yl / xl` raises when `xl = 0`, `1000 / (yl / xl)` when `yl = 0`. -/
lemma xpxOf_degenerate (xl yl : ℚ) (h : xl = 0 ∨ yl = 0) :
    xpxOf xl yl =
      Except.error "ZeroDivisionError: float division by zero" := by
  rcases h with h | h
  · simp [xpxOf, pydiv, h, except_bind_error]
  · rcases eq_or_ne xl 0 with h0 | h0
    · simp [xpxOf, pydiv, h0, except_bind_error]
    · have hr : yl / xl = 0 := by simp [h]
      simp [xpxOf, pydiv, h0, hr, except_bind_ok]

/-- `processAngle` raises on a non-empty projected set with a degenerate
extent. -/
lemma processAngle_degenerate (sqrtA : ℚ → ℚ) (proj : List (ℚ × ℚ))
    (hne : proj ≠ [])
    (hdeg : xmaxOf proj - xminOf proj = 0 ∨ ymaxOf proj - yminOf proj = 0) :
    processAngle sqrtA proj =
      Except.error "ZeroDivisionError: float division by zero" := by
  have hempty : proj.isEmpty = false := by
    simpa [List.isEmpty_iff] using hne
  have hx := xpxOf_degenerate (xmaxOf proj - xminOf proj)
    (ymaxOf proj - yminOf proj) hdeg
  simp [processAngle, hempty, hx, except_bind_error]

/-- If `processTree` succeeds then every angle's `processAngle`
succeeded. -/
lemma processTree_ok_forall (sqrtA : ℚ → ℚ) (projOf : ℚ → List (ℚ × ℚ))
    (angles : List ℚ) (res : List (ℤ × List (List ℕ)))
    (h : processTree sqrtA projOf angles = Except.ok res) :
    ∀ a ∈ angles, ∃ r, processAngle sqrtA (projOf a) = Except.ok r := by
  induction angles generalizing res with
  | nil => intro a ha; exact absurd ha (List.not_mem_nil a)
  | cons b rest ih =>
    intro a ha
    cases hpa : processAngle sqrtA (projOf b) with
    | error e =>
      rw [processTree, hpa, except_bind_error] at h
      simp at h
    | ok r =>
      cases hpt : processTree sqrtA projOf rest with
      | error e =>
        rw [processTree, hpa, except_bind_ok, hpt, except_bind_error] at h
        simp at h
      | ok rs =>
        rcases List.mem_cons.mp ha with rfl | ha'
        · exact ⟨r, hpa⟩
        · exact ih rs hpt a ha'

/-- C9: a file one of whose projected point sets (at some angle) has zero
x-range or zero y-range makes `process_tree` raise; the error is caught at
the task-wrapper boundary (the wrapper returns `false`, no image data is
produced for the file) and the pool still runs every task. -/
theorem degenerate_extent_caught (sqrtA : ℚ → ℚ)
    (projs : Task → ℚ → List (ℚ × ℚ)) (angles : List ℚ) (t : Task)
    (a : ℚ) (ha : a ∈ angles) (hne : projs t a ≠ [])
    (hdeg : xmaxOf (projs t a) - xminOf (projs t a) = 0 ∨
            ymaxOf (projs t a) - yminOf (projs t a) = 0) :
    (∃ e, processTree sqrtA (projs t) angles = Except.error e) ∧
    process_file_wrapper (runTreeTask sqrtA projs angles) t = false ∧
    ∀ tasks : List Task,
      (poolMap (runTreeTask sqrtA projs angles) tasks).length =
        tasks.length := by
  have herr : ∃ e, processTree sqrtA (projs t) angles = Except.error e := by
    cases hpt : processTree sqrtA (projs t) angles with
    | error e => exact ⟨e, rfl⟩
    | ok res =>
      obtain ⟨r, hr⟩ := processTree_ok_forall sqrtA (projs t) angles res hpt a ha
      rw [processAngle_degenerate sqrtA (projs t a) hne hdeg] at hr
      simp at hr
  obtain ⟨e, he⟩ := herr
  refine ⟨⟨e, he⟩, ?_, ?_⟩
  · simp [process_file_wrapper, runTreeTask, he, Except.map]
  · intro tasks
    simp [poolMap]

/-- C9, witness: a vertical-line projection (zero x-range) at angle 0 fails
that task while the pool shape is preserved. -/
theorem degenerate_extent_caught_witness :
    ((0 : ℚ) ∈ [(0 : ℚ)]) ∧
    ((fun (_ : Task) (_ : ℚ) => [((0 : ℚ), (0 : ℚ)), (0, 1)]) ("a.las", "out") 0 ≠ []) ∧
    ((∃ e, processTree (fun _ => 0)
        ((fun (_ : Task) (_ : ℚ) => [((0 : ℚ), (0 : ℚ)), (0, 1)]) ("a.las", "out"))
        [(0 : ℚ)] = Except.error e) ∧
      process_file_wrapper
        (runTreeTask (fun _ => 0)
          (fun (_ : Task) (_ : ℚ) => [((0 : ℚ), (0 : ℚ)), (0, 1)]) [(0 : ℚ)])
        ("a.las", "out") = false ∧
      ∀ tasks : List Task,
        (poolMap (runTreeTask (fun _ => 0)
          (fun (_ : Task) (_ : ℚ) => [((0 : ℚ), (0 : ℚ)), (0, 1)]) [(0 : ℚ)])
          tasks).length = tasks.length) :=
  ⟨by decide, by decide,
    degenerate_extent_caught (fun _ => 0)
      (fun _ _ => [((0 : ℚ), (0 : ℚ)), (0, 1)]) [(0 : ℚ)] ("a.las", "out") 0
      (by decide) (by decide)
      (Or.inl (by norm_num [xmaxOf, xminOf]))⟩

/-- C10: for a non-empty cloud, the second coordinate of each projected
point equals that point's z-coordinate after the offset shift (the offset
has zero z-component, so it equals the original z); consequently the
vertical coordinates are identical across all angles of the same file. -/
theorem projected_snd_eq_z (points : List (V3 ℝ)) (hne : points ≠ [])
    (a : ℝ) :
    (projectedAt points a).map (fun l => l.map Prod.snd) =
      some (points.map (fun p => p.2.2)) ∧
    ∀ b : ℝ, (projectedAt points b).map (fun l => l.map Prod.snd) =
      (projectedAt points a).map (fun l => l.map Prod.snd) := by
  have key : ∀ c : ℝ, (projectedAt points c).map (fun l => l.map Prod.snd) =
      some (points.map (fun p => p.2.2)) := by
    intro c
    obtain ⟨r, hr⟩ : ∃ r, find_highest_point points = some r := by
      cases h : find_highest_point points with
      | none => exact absurd ((find_highest_point_none_iff points).mp h) hne
      | some r => exact ⟨r, rfl⟩
    simp only [projectedAt, offset, hr, Option.map_map, Option.map_some',
      project_to_plane, get_plane, List.map_map, Option.some.injEq]
    apply List.map_congr_left
    intro p _
    simp [Function.comp, sub3, dot3]
  exact ⟨key a, fun b => (key b).trans (key a).symm⟩

/-- C10, witness at a one-point cloud and angle 0. -/
theorem projected_snd_eq_z_witness :
    ([((0 : ℝ), 0, 5)] : List (V3 ℝ)) ≠ [] ∧
    ((projectedAt [((0 : ℝ), 0, 5)] 0).map (fun l => l.map Prod.snd) =
      some ([((0 : ℝ), 0, 5)].map (fun p => p.2.2)) ∧
    ∀ b : ℝ, (projectedAt [((0 : ℝ), 0, 5)] b).map (fun l => l.map Prod.snd) =
      (projectedAt [((0 : ℝ), 0, 5)] 0).map (fun l => l.map Prod.snd)) :=
  ⟨by simp, projected_snd_eq_z [((0 : ℝ), 0, 5)] (by simp) 0⟩

/-- `larr.max()` is the log of the maximum count plus one (`log` is
monotone, so it commutes with the finite maximum). -/
lemma larrMax_eq_log_maxCount {m n : ℕ}
    (g : Fin (m + 1) → Fin (n + 1) → ℕ) :
    larrMax g = Real.log ((maxCount g : ℝ) + 1) := by
  have hmono : Monotone (fun c : ℕ => Real.log ((c : ℝ) + 1)) := by
    intro x y hxy
    apply Real.log_le_log (by positivity)
    have : (x : ℝ) ≤ (y : ℝ) := by exact_mod_cast hxy
    linarith
  have hsup : ∀ x y : ℕ,
      Real.log (((x ⊔ y : ℕ) : ℝ) + 1) =
        Real.log ((x : ℝ) + 1) ⊔ Real.log ((y : ℝ) + 1) := by
    intro x y
    exact hmono.map_max
  have h := Finset.comp_sup'_eq_sup'_comp
    (Finset.univ_nonempty (α := Fin (m + 1) × Fin (n + 1)))
    (f := fun p : Fin (m + 1) × Fin (n + 1) => g p.1 p.2)
    (fun c : ℕ => Real.log ((c : ℝ) + 1)) hsup
  unfold larrMax maxCount logGrid
  rw [← Finset.sup'_eq_sup
    (Finset.univ_nonempty (α := Fin (m + 1) × Fin (n + 1)))]
  exact h.symm

/-- C8, counterexample: cellwise dominance does not give pointwise rendered
dominance, because `vmax` depends on the grid's own maximum.  The 1×2 grids
`B = [1, 1]` and `A = [1, 100]` satisfy `A ≥ B` cellwise, yet at cell (0,0)
the dominated grid `B` saturates its own window (intensity 1) while `A`,
whose window ceiling is `log(101)/2`, renders strictly below 1. -/
theorem log_render_monotonic_counterexample :
    (∀ (i : Fin 1) (j : Fin 2),
      (fun (_ : Fin 1) (_ : Fin 2) => (1 : ℕ)) i j ≤
        (fun (_ : Fin 1) (j : Fin 2) =>
          if j = 0 then (1 : ℕ) else 100) i j) ∧
    ¬ (∀ (i : Fin 1) (j : Fin 2),
      renderedIntensity (fun (_ : Fin 1) (_ : Fin 2) => (1 : ℕ)) i j ≤
        renderedIntensity (fun (_ : Fin 1) (j : Fin 2) =>
          if j = 0 then (1 : ℕ) else 100) i j) := by
  constructor
  · intro i j
    by_cases h : j = 0 <;> simp [h]
  · intro h
    have h00 := h 0 0
    have hlog2 : (0 : ℝ) < Real.log 2 := Real.log_pos (by norm_num)
    have hlog101 : (0 : ℝ) < Real.log 101 := Real.log_pos (by norm_num)
    -- the constant grid saturates its own window
    have hmaxB : larrMax (fun (_ : Fin 1) (_ : Fin 2) => (1 : ℕ)) =
        Real.log 2 := by
      unfold larrMax logGrid
      rw [Finset.sup'_const]
      norm_num
    have hcellB : logGrid (fun (_ : Fin 1) (_ : Fin 2) => (1 : ℕ)) 0 0 =
        Real.log 2 := by
      unfold logGrid
      norm_num
    have hB : renderedIntensity (fun (_ : Fin 1) (_ : Fin 2) => (1 : ℕ)) 0 0
        = 1 := by
      unfold renderedIntensity
      rw [hcellB]
      unfold vmaxOf vminVal
      rw [hmaxB]
      have hden : (0 : ℝ) < Real.log 2 * (1 / 2) - -1 := by linarith
      have hge : (1 : ℝ) ≤ (Real.log 2 - -1) / (Real.log 2 * (1 / 2) - -1) := by
        rw [le_div_iff₀ hden]
        linarith
      rw [max_eq_right (zero_le_one.trans hge), min_eq_left hge]
    -- the dominating grid's window ceiling grows, dropping cell (0,0)
    have hmaxA : larrMax (fun (_ : Fin 1) (j : Fin 2) =>
        if j = 0 then (1 : ℕ) else 100) = Real.log 101 := by
      unfold larrMax logGrid
      apply le_antisymm
      · apply Finset.sup'_le
        intro p _
        by_cases hp : p.2 = 0 <;> simp only [hp, if_true, if_false] <;>
          · apply Real.log_le_log (by positivity)
            push_cast
            norm_num
      · rw [Finset.le_sup'_iff]
        refine ⟨((0 : Fin 1), (1 : Fin 2)), Finset.mem_univ _, ?_⟩
        show Real.log 101 ≤
          Real.log ((((if (1 : Fin 2) = 0 then (1 : ℕ) else 100) : ℕ) : ℝ) + 1)
        rw [if_neg (by decide : ¬ ((1 : Fin 2) = 0))]
        apply Real.log_le_log (by norm_num)
        push_cast
        norm_num
    have hcellA : logGrid (fun (_ : Fin 1) (j : Fin 2) =>
        if j = 0 then (1 : ℕ) else 100) 0 0 = Real.log 2 := by
      unfold logGrid
      norm_num
    have hA : renderedIntensity (fun (_ : Fin 1) (j : Fin 2) =>
        if j = 0 then (1 : ℕ) else 100) 0 0 < 1 := by
      unfold renderedIntensity
      rw [hcellA]
      unfold vmaxOf vminVal
      rw [hmaxA]
      have hden : (0 : ℝ) < Real.log 101 * (1 / 2) - -1 := by linarith
      have hlt : Real.log 2 - -1 < Real.log 101 * (1 / 2) - -1 := by
        have h4 : Real.log 4 = 2 * Real.log 2 := by
          rw [show (4 : ℝ) = 2 ^ 2 by norm_num, Real.log_pow]
          push_cast
          ring
        have hl := Real.log_lt_log (x := 4) (by norm_num)
          (by norm_num : (4 : ℝ) < 101)
        rw [h4] at hl
        linarith
      have hr : (Real.log 2 - -1) / (Real.log 101 * (1 / 2) - -1) < 1 :=
        (div_lt_one hden).mpr hlt
      have hr0 : (0 : ℝ) ≤ (Real.log 2 - -1) / (Real.log 101 * (1 / 2) - -1) :=
        div_nonneg (by linarith) (by linarith)
      rw [max_eq_right hr0, min_eq_right hr.le]
      exact hr
    rw [hB] at h00
    exact absurd h00 (not_le.mpr hA)

/-- C8, amended: the log-scaled rendering is monotonic between grids of
identical shape that additionally share the same maximum count (hence the
same `vmax` window): if `A[i][j] ≥ B[i][j]` in every cell then the rendered
intensity of `A` is ≥ that of `B` at every cell.  (Without the shared-window
condition the counterexample above applies.) -/
theorem log_render_monotonic {m n : ℕ}
    (A B : Fin (m + 1) → Fin (n + 1) → ℕ)
    (hAB : ∀ i j, B i j ≤ A i j) (hmax : maxCount A = maxCount B)
    (i : Fin (m + 1)) (j : Fin (n + 1)) :
    renderedIntensity B i j ≤ renderedIntensity A i j := by
  have hvmax : vmaxOf A = vmaxOf B := by
    unfold vmaxOf
    rw [larrMax_eq_log_maxCount, larrMax_eq_log_maxCount, hmax]
  have hlarr : (0 : ℝ) ≤ larrMax A := by
    rw [larrMax_eq_log_maxCount]
    apply Real.log_nonneg
    have : (0 : ℝ) ≤ (maxCount A : ℝ) := by positivity
    linarith
  have hden : (0 : ℝ) < vmaxOf A - vminVal := by
    unfold vmaxOf vminVal
    linarith
  have hlog : logGrid B i j ≤ logGrid A i j := by
    unfold logGrid
    apply Real.log_le_log (by positivity)
    have : (B i j : ℝ) ≤ (A i j : ℝ) := by exact_mod_cast hAB i j
    linarith
  unfold renderedIntensity
  rw [← hvmax]
  apply min_le_min le_rfl
  apply max_le_max le_rfl
  exact (div_le_div_iff_of_pos_right hden).mpr (by linarith)

/-- C8, witness for the amended theorem: 1×2 grids with the same maximum
count, one dominating the other cellwise. -/
theorem log_render_monotonic_witness :
    (∀ (i : Fin 1) (j : Fin 2),
      (fun (_ : Fin 1) (j : Fin 2) => if j = 0 then (1 : ℕ) else 2) i j ≤
        (fun (_ : Fin 1) (_ : Fin 2) => (2 : ℕ)) i j) ∧
    maxCount (fun (_ : Fin 1) (_ : Fin 2) => (2 : ℕ)) =
      maxCount (fun (_ : Fin 1) (j : Fin 2) => if j = 0 then (1 : ℕ) else 2) ∧
    renderedIntensity
      (fun (_ : Fin 1) (j : Fin 2) => if j = 0 then (1 : ℕ) else 2) 0 0 ≤
      renderedIntensity (fun (_ : Fin 1) (_ : Fin 2) => (2 : ℕ)) 0 0 :=
  ⟨by decide, by decide,
    log_render_monotonic (fun _ _ => 2)
      (fun _ j => if j = 0 then 1 else 2) (by decide) (by decide) 0 0⟩

/-! ### Helper lemmas for the histogram total (C1) -/

/-- A left fold by `min` is below its seed. -/
lemma foldl_min_le_init (l : List ℚ) (a : ℚ) : l.foldl min a ≤ a := by
  induction l generalizing a with
  | nil => simp
  | cons b t ih =>
    rw [List.foldl_cons]
    exact le_trans (ih (min a b)) (min_le_left a b)

/-- A left fold by `min` is below every list element. -/
lemma foldl_min_le_mem (l : List ℚ) (a : ℚ) : ∀ x ∈ l, l.foldl min a ≤ x := by
  induction l generalizing a with
  | nil =>
    intro x hx
    exact absurd hx (List.not_mem_nil x)
  | cons b t ih =>
    intro x hx
    rw [List.foldl_cons]
    rcases List.mem_cons.mp hx with rfl | hx'
    · exact le_trans (foldl_min_le_init t (min a x)) (min_le_right a x)
    · exact ih (min a b) x hx'

/-- A left fold by `max` is above its seed. -/
lemma init_le_foldl_max (l : List ℚ) (a : ℚ) : a ≤ l.foldl max a := by
  induction l generalizing a with
  | nil => simp
  | cons b t ih =>
    rw [List.foldl_cons]
    exact le_trans (le_max_left a b) (ih (max a b))

/-- A left fold by `max` is above every list element. -/
lemma mem_le_foldl_max (l : List ℚ) (a : ℚ) : ∀ x ∈ l, x ≤ l.foldl max a := by
  induction l generalizing a with
  | nil =>
    intro x hx
    exact absurd hx (List.not_mem_nil x)
  | cons b t ih =>
    intro x hx
    rw [List.foldl_cons]
    rcases List.mem_cons.mp hx with rfl | hx'
    · exact le_trans (le_max_right a x) (init_le_foldl_max t (max a x))
    · exact ih (max a b) x hx'

/-- Every point of the projected set lies inside its computed extent. -/
lemma extent_mem (pts : List (ℚ × ℚ)) (p : ℚ × ℚ) (hp : p ∈ pts) :
    xminOf pts ≤ p.1 ∧ p.1 ≤ xmaxOf pts ∧
    yminOf pts ≤ p.2 ∧ p.2 ≤ ymaxOf pts :=
  ⟨foldl_min_le_mem _ _ p.1 (List.mem_map_of_mem Prod.fst hp),
   mem_le_foldl_max _ _ p.1 (List.mem_map_of_mem Prod.fst hp),
   foldl_min_le_mem _ _ p.2 (List.mem_map_of_mem Prod.snd hp),
   mem_le_foldl_max _ _ p.2 (List.mem_map_of_mem Prod.snd hp)⟩

/-- The length of `np.arange` for the modelled exact arithmetic. -/
lemma arange_length (s e st : ℚ) :
    (arange s e st).length = (⌈(e - s) / st⌉).toNat := by
  unfold arange
  rw [List.length_map, List.length_range]

/-- The elements of `np.arange` form the arithmetic sequence. -/
lemma arange_getElem (s e st : ℚ) (i : ℕ) (h : i < (arange s e st).length) :
    (arange s e st)[i] = s + i * st := by
  simp only [arange, List.getElem_map, List.getElem_range]

/-- The bin edges of `process_tree` (positive width, non-degenerate extent):
there are at least two edges, the first is the minimum, and the last is at
or beyond the maximum (the `+ pd` in the arange stop guarantees this). -/
lemma edges_spec (lo hi pd : ℚ) (hpd : 0 < pd) (hlt : lo < hi) :
    2 ≤ (arange lo (hi + pd) pd).length ∧
    (arange lo (hi + pd) pd).getD 0 0 = lo ∧
    hi ≤ (arange lo (hi + pd) pd).getD ((arange lo (hi + pd) pd).length - 1) 0 := by
  have hq : (0 : ℚ) < (hi - lo) / pd := div_pos (by linarith) hpd
  have hceil : (0 : ℤ) < ⌈(hi - lo) / pd⌉ := Int.ceil_pos.mpr hq
  have hlen : (arange lo (hi + pd) pd).length = (⌈(hi - lo) / pd⌉).toNat + 1 := by
    rw [arange_length]
    have hdiv : (hi + pd - lo) / pd = (hi - lo) / pd + 1 := by
      field_simp
      ring
    rw [hdiv, Int.ceil_add_one]
    omega
  have hn2 : 2 ≤ (arange lo (hi + pd) pd).length := by omega
  refine ⟨hn2, ?_, ?_⟩
  · rw [List.getD_eq_getElem _ _ (by omega), arange_getElem]
    norm_num
  · rw [List.getD_eq_getElem _ _ (by omega), arange_getElem]
    have hlen1 : (arange lo (hi + pd) pd).length - 1 =
        (⌈(hi - lo) / pd⌉).toNat := by omega
    rw [hlen1]
    have hle1 : (hi - lo) / pd ≤ (((⌈(hi - lo) / pd⌉).toNat : ℕ) : ℚ) := by
      refine le_trans (Int.le_ceil _) ?_
      exact_mod_cast Int.self_le_toNat _
    have hmul : hi - lo ≤ (((⌈(hi - lo) / pd⌉).toNat : ℕ) : ℚ) * pd := by
      calc hi - lo = ((hi - lo) / pd) * pd := by field_simp
        _ ≤ _ := mul_le_mul_of_nonneg_right hle1 hpd.le
    linarith

/-- Every coordinate inside the extent is assigned exactly one bin, whose
index lies inside the grid: the core of the no-point-dropped invariant. -/
lemma binIndexOf_covers (lo hi pd x : ℚ) (hpd : 0 < pd) (hlt : lo < hi)
    (hx1 : lo ≤ x) (hx2 : x ≤ hi) :
    ∃ i, binIndexOf (arange lo (hi + pd) pd) x = some i ∧
      i + 1 < (arange lo (hi + pd) pd).length := by
  obtain ⟨hn2, h0, hN⟩ := edges_spec lo hi pd hpd hlt
  have hnot1 : ¬ ((arange lo (hi + pd) pd).length < 2) := by omega
  have hxe0 : ¬ (x < (arange lo (hi + pd) pd).getD 0 0) := by
    rw [h0]
    exact not_lt.mpr hx1
  have hxeN : ¬ ((arange lo (hi + pd) pd).getD
      ((arange lo (hi + pd) pd).length - 1) 0 < x) :=
    not_lt.mpr (le_trans hx2 hN)
  by_cases hlast : x = (arange lo (hi + pd) pd).getD
      ((arange lo (hi + pd) pd).length - 1) 0
  · refine ⟨(arange lo (hi + pd) pd).length - 2, ?_, by omega⟩
    unfold binIndexOf
    rw [if_neg hnot1, if_neg (not_or.mpr ⟨hxe0, hxeN⟩), if_pos hlast]
  · have hcount1 : 0 < (arange lo (hi + pd) pd).countP
        (fun e => decide (e ≤ x)) := by
      rw [List.countP_pos_iff]
      refine ⟨(arange lo (hi + pd) pd)[0], List.getElem_mem (by omega), ?_⟩
      have : (arange lo (hi + pd) pd)[0] = lo := by
        rw [← List.getD_eq_getElem _ 0 (by omega), h0]
      rw [this]
      exact decide_eq_true hx1
    have hcountn : (arange lo (hi + pd) pd).countP
        (fun e => decide (e ≤ x)) < (arange lo (hi + pd) pd).length := by
      rcases lt_or_eq_of_le (List.countP_le_length
        (p := fun e => decide (e ≤ x)) (l := arange lo (hi + pd) pd)) with h | h
      · exact h
      · exfalso
        have hall := List.countP_eq_length.mp h
        have hNmem : (arange lo (hi + pd) pd).getD
            ((arange lo (hi + pd) pd).length - 1) 0 ∈
              arange lo (hi + pd) pd := by
          rw [List.getD_eq_getElem _ _ (by omega)]
          exact List.getElem_mem _
        have := hall _ hNmem
        have hle : (arange lo (hi + pd) pd).getD
            ((arange lo (hi + pd) pd).length - 1) 0 ≤ x :=
          of_decide_eq_true this
        have hxlt : x < (arange lo (hi + pd) pd).getD
            ((arange lo (hi + pd) pd).length - 1) 0 :=
          lt_of_le_of_ne (not_lt.mp hxeN) hlast
        exact absurd hle (not_le.mpr hxlt)
    refine ⟨(arange lo (hi + pd) pd).countP (fun e => decide (e ≤ x)) - 1,
      ?_, by omega⟩
    unfold binIndexOf
    rw [if_neg hnot1, if_neg (not_or.mpr ⟨hxe0, hxeN⟩), if_neg hlast]

/-- Summing, over a finite index set, the counts of list elements mapped to
each index by a partial classifier that hits the set on every element,
recovers the length of the list: nothing dropped, nothing double-counted. -/
lemma countP_sum_partition {α β : Type} [DecidableEq β] (l : List α)
    (f : α → Option β) (s : Finset β)
    (h : ∀ a ∈ l, ∃ b ∈ s, f a = some b) :
    ∑ b ∈ s, l.countP (fun a => decide (f a = some b)) = l.length := by
  induction l with
  | nil => simp
  | cons a t ih =>
    have ht : ∀ x ∈ t, ∃ b ∈ s, f x = some b := fun x hx =>
      h x (List.mem_cons_of_mem a hx)
    obtain ⟨b0, hb0s, hb0⟩ := h a (List.mem_cons_self a t)
    have hsplit : ∀ b ∈ s,
        (a :: t).countP (fun x => decide (f x = some b)) =
          t.countP (fun x => decide (f x = some b)) +
            if b = b0 then 1 else 0 := by
      intro b _
      rw [List.countP_cons]
      congr 1
      by_cases hbb : b = b0
      · subst hbb
        simp [hb0]
      · have h1 : f a ≠ some b := by
          rw [hb0]
          simp only [ne_eq, Option.some.injEq]
          exact fun hc => hbb hc.symm
        simp [h1, hbb]
    rw [Finset.sum_congr rfl hsplit, Finset.sum_add_distrib, ih ht]
    have hsum1 : ∑ b ∈ s, (if b = b0 then 1 else 0) = 1 := by
      rw [Finset.sum_ite_eq' s b0 (fun _ => 1)]
      simp [hb0s]
    rw [hsum1]
    simp

/-- Each grid cell of `hist2d` counts exactly the points classified to that
(row, column) by `binPair`. -/
lemma hist2d_countP_binPair (pts : List (ℚ × ℚ)) (xe ye : List ℚ)
    (p : ℕ × ℕ) :
    hist2d pts xe ye p.1 p.2 =
      pts.countP (fun q => decide (binPair xe ye q = some p)) := by
  obtain ⟨r, c⟩ := p
  unfold hist2d histCell
  apply List.countP_congr
  intro q _
  cases hbx : binIndexOf xe q.1 <;> cases hby : binIndexOf ye q.2 <;>
    simp [binPair, hbx, hby, and_comm]

/-- C1: for a non-empty projected point set with positive x- and y-range and
any positive bin width `pd` (the code instantiates `pd` with the positive
value `sqrt((xrange*yrange)/N)`), the cell counts of the histogram grid of
`process_tree` sum exactly to the number of input points: no point falls
outside the grid and none is counted twice. -/
theorem hist_total_eq_card (pts : List (ℚ × ℚ)) (pd : ℚ)
    (hne : pts ≠ []) (hpd : 0 < pd)
    (hx : xminOf pts < xmaxOf pts) (hy : yminOf pts < ymaxOf pts) :
    histTotal pts pd = pts.length := by
  have hcover : ∀ q ∈ pts, ∃ b ∈
      Finset.range ((ybinsOf pts pd).length - 1) ×ˢ
        Finset.range ((xbinsOf pts pd).length - 1),
      binPair (xbinsOf pts pd) (ybinsOf pts pd) q = some b := by
    intro q hq
    obtain ⟨hq1, hq2, hq3, hq4⟩ := extent_mem pts q hq
    obtain ⟨i, hix, hixlt⟩ :=
      binIndexOf_covers (xminOf pts) (xmaxOf pts) pd q.1 hpd hx hq1 hq2
    obtain ⟨j, hjy, hjylt⟩ :=
      binIndexOf_covers (yminOf pts) (ymaxOf pts) pd q.2 hpd hy hq3 hq4
    have hix' : binIndexOf (xbinsOf pts pd) q.1 = some i := hix
    have hjy' : binIndexOf (ybinsOf pts pd) q.2 = some j := hjy
    have hxlen : (xbinsOf pts pd).length =
        (arange (xminOf pts) (xmaxOf pts + pd) pd).length := rfl
    have hylen : (ybinsOf pts pd).length =
        (arange (yminOf pts) (ymaxOf pts + pd) pd).length := rfl
    refine ⟨(j, i), ?_, ?_⟩
    · simp only [Finset.mem_product, Finset.mem_range]
      constructor <;> omega
    · unfold binPair
      rw [hix', hjy']
  calc histTotal pts pd
      = ∑ p ∈ Finset.range ((ybinsOf pts pd).length - 1) ×ˢ
          Finset.range ((xbinsOf pts pd).length - 1),
          pts.countP (fun q =>
            decide (binPair (xbinsOf pts pd) (ybinsOf pts pd) q = some p)) := by
        unfold histTotal
        exact Finset.sum_congr rfl
          (fun p _ => hist2d_countP_binPair pts _ _ p)
    _ = pts.length := countP_sum_partition pts _ _ hcover

/-- C1, witness: two points, unit bin width. -/
theorem hist_total_eq_card_witness :
    ([((0 : ℚ), (0 : ℚ)), (1, 2)] ≠ ([] : List (ℚ × ℚ))) ∧
    (0 : ℚ) < 1 ∧
    xminOf [((0 : ℚ), (0 : ℚ)), (1, 2)] < xmaxOf [((0 : ℚ), (0 : ℚ)), (1, 2)] ∧
    yminOf [((0 : ℚ), (0 : ℚ)), (1, 2)] < ymaxOf [((0 : ℚ), (0 : ℚ)), (1, 2)] ∧
    histTotal [((0 : ℚ), (0 : ℚ)), (1, 2)] 1 =
      ([((0 : ℚ), (0 : ℚ)), (1, 2)] : List (ℚ × ℚ)).length :=
  ⟨by decide, by decide, by decide, by decide,
    hist_total_eq_card [((0 : ℚ), (0 : ℚ)), (1, 2)] 1
      (by decide) (by decide) (by decide) (by decide)⟩

end TreeProjection
